import Mathlib

/-!
Shallow embedding of the CCD session-monitoring core (Go packages
`daemon/monitor`, `daemon/extractor`, the `smart` package and the `ledger`
package) together with proofs about the frozen claims.

Modelling conventions used throughout:
* Go `string` is modelled as `List Char` (`Str`); `len` counts characters
  (the sources only manipulate ASCII literals, where bytes = characters).
* Go `time.Time` / `time.Duration` are modelled as `Int` nanoseconds;
  `time.Since(t)` is `now - t` for an explicit `now` parameter.
* Go `float64` arithmetic in the smart package (`ImportanceScorer`,
  `PreCompactDetector`) is modelled over `ℚ` with the exact literal
  constants of the source; for the token thresholds and scores involved the
  IEEE-754 double computations of the source agree with exact rational
  arithmetic.
* Fallible Go functions returning `(T, error)` are modelled as
  `Option T × Option GoErr` pairs (a `nil` pointer result and a `nil` error
  are both `none`).
-/

/-- Go `string`, modelled as a list of characters. -/
abbrev Str := List Char

namespace CCD

/-- ASCII lower-casing of one character (the source only ever lower-cases
ASCII trigger keywords, so `strings.ToLower` restricted to ASCII). -/
def lowerChar (c : Char) : Char :=
  if 65 ≤ c.toNat ∧ c.toNat ≤ 90 then Char.ofNat (c.toNat + 32) else c

/-- ASCII `strings.ToLower`. -/
def lowerStr (s : Str) : Str := s.map lowerChar

/-- `strings.Contains`: `needle` occurs as a contiguous substring of `hay`. -/
def containsSub (hay needle : Str) : Bool :=
  hay.tails.any (fun t => needle.isPrefixOf t)

/-- `containsAny` from `daemon/extractor/facts.go`: case-insensitive
substring match of any keyword. -/
def containsAny (text : Str) (keywords : List Str) : Bool :=
  let lowerText := lowerStr text
  keywords.any (fun k => containsSub lowerText (lowerStr k))

/-- Whitespace trimming (`strings.TrimSpace`). -/
def trimStr (s : Str) : Str :=
  (s.dropWhile Char.isWhitespace).reverse.dropWhile Char.isWhitespace |>.reverse

/-- `strings.TrimPrefix`. -/
def trimPre (s p : Str) : Str :=
  if p.isPrefixOf s then s.drop p.length else s

/-- Nanoseconds in one hour. -/
def nsPerHour : Int := 3600000000000

/-- Nanoseconds in one minute. -/
def nsPerMinute : Int := 60000000000

/-- Nanoseconds in one day (`24 * time.Hour`). -/
def nsPerDay : Int := 24 * nsPerHour

/-!  ## ImportanceScorer (smart package)  -/

/-- The type-weight table built by `NewImportanceScorer` (a Go map; lookup
of an absent key contributes nothing). -/
def scorerWeights : List (Str × ℚ) :=
  [("blocker".toList, 1), ("decision".toList, 9/10), ("dependency".toList, 7/10),
   ("todo".toList, 6/10), ("insight".toList, 5/10), ("file_change".toList, 4/10)]

/-- `ImportanceScorer.analyzeContent`: keyword bonuses plus a length bonus,
capped at 1.5. -/
def analyzeContent (content : Str) : ℚ :=
  let lower := lowerStr content
  let highValue : List Str :=
    ["critical".toList, "breaking".toList, "urgent".toList, "security".toList,
     "bug".toList, "crash".toList, "error".toList]
  let mediumValue : List Str :=
    ["important".toList, "major".toList, "refactor".toList, "optimize".toList,
     "performance".toList]
  let s1 : ℚ := (highValue.filter (fun k => containsSub lower k)).length * (3/10)
  let s2 : ℚ := (mediumValue.filter (fun k => containsSub lower k)).length * (2/10)
  let s3 : ℚ := if content.length > 100 then 3/10
    else if content.length > 50 then 2/10 else 0
  min (s1 + s2 + s3) (3/2)

/-- `ImportanceScorer.recencyBonus`; `t` and `now` in nanoseconds, the source
compares `time.Since(t).Hours()` against 1, 24 and 168. -/
def recencyBonus (t now : Int) : ℚ :=
  if now - t < nsPerHour then 1/2
  else if now - t < 24 * nsPerHour then 3/10
  else if now - t < 168 * nsPerHour then 1/10
  else 0

/-- `math.Round`: nearest integer, ties away from zero. -/
def goRound (q : ℚ) : Int :=
  if q < 0 then -((-q + 1/2).floor) else (q + 1/2).floor

/-- `ImportanceScorer.CalculateImportance` from the smart package: weighted
sum of a type base weight, a content bonus and a recency bonus, rounded and
clamped to `[1,5]`. -/
def calculateImportance (factType content : Str) (created now : Int) : Int :=
  let base : ℚ := match scorerWeights.lookup factType with
    | some w => w * 3
    | none => 0
  let score : ℚ := base + analyzeContent content + recencyBonus created now
  let normalized : Int := goRound score
  if normalized < 1 then 1
  else if normalized > 5 then 5
  else normalized

/-!  ## StaleDetector (smart package)  -/

/-- The per-type stale-age table built by `NewStaleDetector` (days). -/
def staleDaysTable : List (Str × Int) :=
  [("blocker".toList, 3), ("todo".toList, 7), ("file_change".toList, 14),
   ("dependency".toList, 30), ("decision".toList, 90), ("insight".toList, 60)]

/-- The Go map lookup with the default for unknown types. -/
def lookupStaleDays (factType : Str) : Int :=
  match staleDaysTable.lookup factType with
  | some d => d
  | none => 30

/-- `StaleDetector.IsStale`: content short-circuits for resolved blockers and
done todos, otherwise an age comparison against the per-type threshold
(default 30 days for unknown types). -/
def isStale (factType : Str) (created : Int) (content : Str) (now : Int) : Bool :=
  let days : Int := lookupStaleDays factType
  let age : Int := now - created
  let threshold : Int := days * nsPerDay
  if factType = "blocker".toList ∧ containsSub (lowerStr content) "resolved".toList then
    true
  else if factType = "todo".toList ∧ containsSub (lowerStr content) "done".toList then
    true
  else
    age > threshold

/-- `IsStale` exactly as worded by the claim: content short-circuits first,
then the age comparison against the claim's enumerated per-type thresholds
(blocker 3, todo 7, file_change 14, dependency 30, decision 90, insight 60;
unknown type 30 days). -/
def claimStale (factType : Str) (created : Int) (content : Str) (now : Int) : Bool :=
  if factType = "blocker".toList ∧ containsSub (lowerStr content) "resolved".toList then
    true
  else if factType = "todo".toList ∧ containsSub (lowerStr content) "done".toList then
    true
  else
    let days : Int :=
      if factType = "blocker".toList then 3
      else if factType = "todo".toList then 7
      else if factType = "file_change".toList then 14
      else if factType = "dependency".toList then 30
      else if factType = "decision".toList then 90
      else if factType = "insight".toList then 60
      else 30
    now - created > days * nsPerDay

/-!  ## ContextCompressor (smart package)  -/

/-- `smart.CompressibleFact`. -/
structure CompressibleFact where
  type : Str
  content : Str
  importance : Int
  created : Int
  stale : Bool
  deriving DecidableEq, Repr

/-- The swap test of `ContextCompressor.sortByImportance`:
`sorted[i].Importance < sorted[j].Importance || (equal && sorted[i].Created.Before(sorted[j].Created))`. -/
def factLt (a b : CompressibleFact) : Bool :=
  a.importance < b.importance ∨ (a.importance = b.importance ∧ a.created < b.created)

/-- One pass of the source's exchange sort at a fixed outer index: scan the
tail holding the current occupant `c` of the outer slot; every time
`factLt c y` holds the two are swapped (the old occupant drops into `y`'s
slot).  Returns the final occupant (the maximum) and the shuffled tail. -/
def selectPass (c : CompressibleFact) : List CompressibleFact →
    CompressibleFact × List CompressibleFact
  | [] => (c, [])
  | y :: ys =>
    if factLt c y then
      let p := selectPass y ys
      (p.1, c :: p.2)
    else
      let p := selectPass c ys
      (p.1, y :: p.2)

theorem selectPass_length (c : CompressibleFact) (l : List CompressibleFact) :
    (selectPass c l).2.length = l.length := by
  induction l generalizing c with
  | nil => rfl
  | cons y ys ih =>
    simp only [selectPass]
    split <;> simp [ih]

/-- `ContextCompressor.sortByImportance`: the nested compare-and-swap loops
of the source, expressed as repeated `selectPass` extraction. -/
def sortByImportance : List CompressibleFact → List CompressibleFact
  | [] => []
  | x :: xs =>
    let p := selectPass x xs
    p.1 :: sortByImportance p.2
termination_by l => l.length
decreasing_by
  simp only [selectPass_length, List.length_cons]
  omega

/-- The fact types of `facts`, in first-occurrence order (the Go code groups
into a map and iterates it in unspecified order; the model fixes
first-occurrence order, and every property proved about the result is
insensitive to the order across groups). -/
def typesInOrder (facts : List CompressibleFact) : List Str :=
  (facts.map (·.type)).dedup

/-- `ContextCompressor.Compress`: drop stale facts, group by type, sort each
group with the source's exchange sort, keep the first
`min maxFactsPerType (group length)` of each group, concatenate. -/
def compress (maxFactsPerType : ℕ) (facts : List CompressibleFact) :
    List CompressibleFact :=
  let kept := facts.filter (fun f => !f.stale)
  (typesInOrder kept).flatMap (fun t =>
    (sortByImportance (kept.filter (fun f => f.type = t))).take maxFactsPerType)

/-!  ## PreCompactDetector (smart package)  -/

/-- `PreCompactDetector.ShouldCreateHandoff`:
`float64(currentTokens) >= float64(threshold) * 0.85` with the fixed warning
fraction `0.85`, modelled over exact rationals (for token-count magnitudes
the double computation agrees with the exact one). -/
def shouldCreateHandoff (threshold currentTokens : Int) : Bool :=
  (currentTokens : ℚ) ≥ (threshold : ℚ) * (85/100)

/-- `PreCompactDetector.TimeUntilCompact`: remaining tokens, floored at 0. -/
def timeUntilCompact (threshold currentTokens : Int) : Int :=
  let remaining := threshold - currentTokens
  if remaining < 0 then 0 else remaining

/-!  ## LogParser (daemon/monitor/parser.go)  -/

/-- `types.Message` (the timestamp field is never read by the core and is
omitted). -/
structure Msg where
  role : Str
  content : Str
  deriving DecidableEq, Repr

/-- `types.Conversation`. -/
structure Conversation where
  messages : List Msg
  deriving DecidableEq, Repr

/-- State of the line scanner of `Parser.parseText`: emitted messages plus
the currently open message. -/
structure PState where
  msgs : List Msg
  cur : Option Msg
  deriving DecidableEq, Repr

/-- Flush the currently open message, as done on a role marker and at end of
input. -/
def flushCur (o : Option Msg) : List Msg :=
  match o with
  | some m => [m]
  | none => []

/-- One iteration of the loop body of `Parser.parseText` (source
transcription): trim, skip blanks, open a new message on a `User:`/`user:`
or `Assistant:`/`assistant:` marker (both casing variants of the role
marker are trimmed from the content), otherwise newline-append to the open
message (lines before the first marker are dropped). -/
def textLine (st : PState) (raw : Str) : PState :=
  let line := trimStr raw
  if line = [] then st
  else if "User:".toList.isPrefixOf line ∨ "user:".toList.isPrefixOf line then
    { msgs := st.msgs ++ flushCur st.cur,
      cur := some ⟨"user".toList, trimPre (trimPre line "User:".toList) "user:".toList⟩ }
  else if "Assistant:".toList.isPrefixOf line ∨ "assistant:".toList.isPrefixOf line then
    { msgs := st.msgs ++ flushCur st.cur,
      cur := some ⟨"assistant".toList,
        trimPre (trimPre line "Assistant:".toList) "assistant:".toList⟩ }
  else
    match st.cur with
    | some m => { st with cur := some ⟨m.role, m.content ++ '\n' :: line⟩ }
    | none => st

/-- `Parser.parseText`: fold the line scanner over the `"\n"`-split input and
flush the trailing open message. -/
def parseText (data : Str) : List Msg :=
  let st := (data.splitOn '\n').foldl textLine ⟨[], none⟩
  st.msgs ++ flushCur st.cur

/-- One line step as worded by the claim: a line beginning with a
*case-insensitive* `User:` or `Assistant:` marker opens a new message whose
initial content is the remainder of the line. -/
def claimLine (st : PState) (raw : Str) : PState :=
  let line := trimStr raw
  if line = [] then st
  else if "user:".toList.isPrefixOf (lowerStr line) then
    { msgs := st.msgs ++ flushCur st.cur, cur := some ⟨"user".toList, line.drop 5⟩ }
  else if "assistant:".toList.isPrefixOf (lowerStr line) then
    { msgs := st.msgs ++ flushCur st.cur, cur := some ⟨"assistant".toList, line.drop 10⟩ }
  else
    match st.cur with
    | some m => { st with cur := some ⟨m.role, m.content ++ '\n' :: line⟩ }
    | none => st

/-- The fallback parser as worded by the claim (case-insensitive role
markers). -/
def parseTextClaim (data : Str) : List Msg :=
  let st := (data.splitOn '\n').foldl claimLine ⟨[], none⟩
  st.msgs ++ flushCur st.cur

/-- One line step as worded by the amended claim: exactly the four literal
markers `User:`, `user:`, `Assistant:`, `assistant:` are recognised; after
an upper-case marker is stripped, a following lower-case marker is stripped
as well. -/
def amendedLine (st : PState) (raw : Str) : PState :=
  let line := trimStr raw
  if line = [] then st
  else if "User:".toList.isPrefixOf line then
    let r := line.drop 5
    { msgs := st.msgs ++ flushCur st.cur,
      cur := some ⟨"user".toList,
        if "user:".toList.isPrefixOf r then r.drop 5 else r⟩ }
  else if "user:".toList.isPrefixOf line then
    { msgs := st.msgs ++ flushCur st.cur, cur := some ⟨"user".toList, line.drop 5⟩ }
  else if "Assistant:".toList.isPrefixOf line then
    let r := line.drop 10
    { msgs := st.msgs ++ flushCur st.cur,
      cur := some ⟨"assistant".toList,
        if "assistant:".toList.isPrefixOf r then r.drop 10 else r⟩ }
  else if "assistant:".toList.isPrefixOf line then
    { msgs := st.msgs ++ flushCur st.cur, cur := some ⟨"assistant".toList, line.drop 10⟩ }
  else
    match st.cur with
    | some m => { st with cur := some ⟨m.role, m.content ++ '\n' :: line⟩ }
    | none => st

/-- The fallback parser as worded by the amended claim. -/
def parseTextAmended (data : Str) : List Msg :=
  let st := (data.splitOn '\n').foldl amendedLine ⟨[], none⟩
  st.msgs ++ flushCur st.cur

/-- `Parser.Parse`: JSON deserialization is attempted first (modelled by the
external decoder `jsonDec`, `none` standing for a `json.Unmarshal` error);
on failure the text fallback runs.  The function never returns an error. -/
def parseConv (jsonDec : Str → Option Conversation) (data : Str) : Conversation :=
  match jsonDec data with
  | some conv => conv
  | none => ⟨parseText data⟩

/-- `Parser.CountTokens`: sum of `len(content) / 4` over all messages. -/
def countTokens (conv : Conversation) : ℕ :=
  conv.messages.foldl (fun total m => total + m.content.length / 4) 0

/-!  ## FactExtractor (daemon/extractor/facts.go)  -/

/-- `extractor.Fact`. -/
structure EFact where
  type : Str
  content : Str
  importance : Int
  deriving DecidableEq, Repr

def decisionKeys : List Str :=
  ["decided to".toList, "chose to".toList, "going with".toList, "will use".toList]

def blockerKeys : List Str :=
  ["blocked by".toList, "can't proceed".toList, "error:".toList, "failed to".toList]

def todoKeys : List Str :=
  ["TODO:".toList, "need to".toList, "should".toList, "must".toList]

def changeVerbKeys : List Str :=
  ["created".toList, "modified".toList, "updated".toList, "deleted".toList]

def fileExtKeys : List Str :=
  [".ts".toList, ".tsx".toList, ".js".toList, ".jsx".toList, ".go".toList,
   ".py".toList, ".java".toList]

def dependencyKeys : List Str :=
  ["installed".toList, "added dependency".toList, "npm install".toList, "go get".toList]

def insightKeys : List Str :=
  ["discovered".toList, "found that".toList, "interesting".toList, "note that".toList]

/-- `extractSentence`: split on `"."`, return the first sentence containing a
keyword (trimmed), or the empty string. -/
def extractSentence (text : Str) (keywords : List Str) : Str :=
  match (text.splitOn '.').find? (fun s => containsAny s keywords) with
  | some s => trimStr s
  | none => []

/-- The six independent trigger checks of `ExtractFacts` applied to one
assistant message, in source order. -/
def extractFromMsg (content : Str) : List EFact :=
  (if containsAny content decisionKeys then
    [⟨"decision".toList, extractSentence content decisionKeys, 4⟩] else [])
  ++ (if containsAny content blockerKeys then
    [⟨"blocker".toList, extractSentence content blockerKeys, 5⟩] else [])
  ++ (if containsAny content todoKeys then
    [⟨"todo".toList, extractSentence content todoKeys, 3⟩] else [])
  ++ (if containsAny content changeVerbKeys ∧ containsAny content fileExtKeys then
    [⟨"file_change".toList, extractSentence content changeVerbKeys, 2⟩] else [])
  ++ (if containsAny content dependencyKeys then
    [⟨"dependency".toList, extractSentence content dependencyKeys, 3⟩] else [])
  ++ (if containsAny content insightKeys then
    [⟨"insight".toList, extractSentence content insightKeys, 3⟩] else [])

/-- `extractor.ExtractFacts`: scan assistant messages only. -/
def extractFacts (conv : Conversation) : List EFact :=
  conv.messages.flatMap (fun m =>
    if m.role = "assistant".toList then extractFromMsg m.content else [])

/-!  ## ContinuityLedger (ledger package)

The ledger directory is modelled as an association list from filename to
file content; a JSON-lines file is a list of JSON values (Go's
`json.Marshal` escapes newlines inside strings, so one marshalled entry is
exactly one line of the file).  `json.Marshal`/`json.Unmarshal` on the
`LedgerEntry` struct are modelled by a concrete encoder/decoder pair over
these JSON values.  -/

/-- A JSON value. -/
inductive Jval where
  | jnull : Jval
  | jnum : Int → Jval
  | jstr : Str → Jval
  | jarr : List Jval → Jval
  | jobj : List (Str × Jval) → Jval

/-- `ledger.Fact`. -/
structure LFact where
  type : Str
  content : Str
  importance : Int
  timestamp : Int
  deriving DecidableEq, Repr

/-- `ledger.LedgerEntry` (the `context` field is an open JSON object). -/
structure LedgerEntry where
  timestamp : Int
  sessionID : Str
  projectID : Str
  tokenCount : Int
  facts : List LFact
  context : List (Str × Jval)
  decisions : List Str
  nextSteps : List Str
  blockers : List Str
  fileChanges : List Str

/-- Marshalling of one `ledger.Fact`. -/
def encodeFact (f : LFact) : Jval :=
  .jobj [("type".toList, .jstr f.type), ("content".toList, .jstr f.content),
    ("importance".toList, .jnum f.importance), ("timestamp".toList, .jnum f.timestamp)]

def jStr? : Jval → Option Str
  | .jstr s => some s
  | _ => none

def jNum? : Jval → Option Int
  | .jnum n => some n
  | _ => none

def jStrList? : Jval → Option (List Str)
  | .jarr xs => xs.mapM jStr?
  | _ => none

/-- Unmarshalling of one `ledger.Fact` (defined on the canonical field
layout produced by the encoder; `json.Unmarshal` additionally tolerates
reordered or extra fields, which never arise in the ledger files the core
itself writes). -/
def decodeFact : Jval → Option LFact
  | .jobj [(k1, v1), (k2, v2), (k3, v3), (k4, v4)] =>
    if k1 = "type".toList ∧ k2 = "content".toList ∧ k3 = "importance".toList ∧
        k4 = "timestamp".toList then
      (jStr? v1).bind fun t => (jStr? v2).bind fun c =>
      (jNum? v3).bind fun imp => (jNum? v4).bind fun ts =>
      some ⟨t, c, imp, ts⟩
    else none
  | _ => none

/-- Marshalling of a `ledger.LedgerEntry`, field order as in the struct. -/
def encodeEntry (e : LedgerEntry) : Jval :=
  .jobj [("timestamp".toList, .jnum e.timestamp),
    ("session_id".toList, .jstr e.sessionID),
    ("project_id".toList, .jstr e.projectID),
    ("token_count".toList, .jnum e.tokenCount),
    ("facts".toList, .jarr (e.facts.map encodeFact)),
    ("context".toList, .jobj e.context),
    ("decisions".toList, .jarr (e.decisions.map Jval.jstr)),
    ("next_steps".toList, .jarr (e.nextSteps.map Jval.jstr)),
    ("blockers".toList, .jarr (e.blockers.map Jval.jstr)),
    ("file_changes".toList, .jarr (e.fileChanges.map Jval.jstr))]

def jFacts? : Jval → Option (List LFact)
  | .jarr xs => xs.mapM decodeFact
  | _ => none

def jCtx? : Jval → Option (List (Str × Jval))
  | .jobj fs => some fs
  | _ => none

/-- Unmarshalling of a `ledger.LedgerEntry` (canonical layout, see
`decodeFact`). -/
def decodeEntry : Jval → Option LedgerEntry
  | .jobj [(k1, v1), (k2, v2), (k3, v3), (k4, v4), (k5, v5), (k6, v6), (k7, v7),
      (k8, v8), (k9, v9), (k10, v10)] =>
    if k1 = "timestamp".toList ∧ k2 = "session_id".toList ∧ k3 = "project_id".toList ∧
        k4 = "token_count".toList ∧ k5 = "facts".toList ∧ k6 = "context".toList ∧
        k7 = "decisions".toList ∧ k8 = "next_steps".toList ∧ k9 = "blockers".toList ∧
        k10 = "file_changes".toList then
      (jNum? v1).bind fun ts => (jStr? v2).bind fun sid =>
      (jStr? v3).bind fun pid => (jNum? v4).bind fun tc =>
      (jFacts? v5).bind fun fs => (jCtx? v6).bind fun ctx =>
      (jStrList? v7).bind fun ds => (jStrList? v8).bind fun ns =>
      (jStrList? v9).bind fun bs => (jStrList? v10).bind fun fc =>
      some ⟨ts, sid, pid, tc, fs, ctx, ds, ns, bs, fc⟩
    else none
  | _ => none

/-- The ledger directory: filenames with their JSON-line contents, in
creation order. -/
abbrev FileStore := List (Str × List Jval)

/-- Append one line to a file, creating the file if absent
(`os.OpenFile` with `O_APPEND|O_CREATE`). -/
def appendLine : FileStore → Str → Jval → FileStore
  | [], f, j => [(f, [j])]
  | (g, ls) :: rest, f, j =>
    if g = f then (g, ls ++ [j]) :: rest else (g, ls) :: appendLine rest f j

/-- The daily ledger filename `CONTINUITY_<date>.jsonl`. -/
def ledgerFilename (today : Str) : Str :=
  "CONTINUITY_".toList ++ today ++ ".jsonl".toList

/-- `Ledger.AppendEntry`: marshal the entry and append it as one line of
today's ledger file. -/
def appendEntry (today : Str) (e : LedgerEntry) (store : FileStore) : FileStore :=
  appendLine store (ledgerFilename today) (encodeEntry e)

/-- The pattern `CONTINUITY_*.jsonl` used by `filepath.Glob`. -/
def matchesGlob (f : Str) : Bool :=
  "CONTINUITY_".toList.isPrefixOf f && ".jsonl".toList.isSuffixOf f

/-- Lexicographic byte-order on filenames (`filepath.Glob` returns sorted
names). -/
def strLe : Str → Str → Bool
  | [], _ => true
  | _ :: _, [] => false
  | a :: as, b :: bs =>
    if a.toNat < b.toNat then true
    else if b.toNat < a.toNat then false
    else strLe as bs

def insertSorted (x : Str) : List Str → List Str
  | [] => [x]
  | y :: ys => if strLe x y then x :: y :: ys else y :: insertSorted x ys

def sortStrs (l : List Str) : List Str := l.foldr insertSorted []

/-- The Go zero value of `LedgerEntry` (what `json.Unmarshal` leaves behind
when it fails before filling any field). -/
def zeroEntry : LedgerEntry := ⟨0, [], [], 0, [], [], [], [], [], []⟩

/-- `Ledger.GetLatestEntry`: glob the date-named files, take the
lexicographically last, parse its last non-empty line.  Faithfully to the
source, an empty glob result returns a `nil` entry *and* a `nil` error
(`return nil, err` with `err == nil`). -/
def getLatestEntry (store : FileStore) : Option LedgerEntry × Option Str :=
  let files := sortStrs ((store.map Prod.fst).filter matchesGlob)
  match files.getLast? with
  | none => (none, none)
  | some latest =>
    let lines := ((store.lookup latest).getD [])
    match lines.getLast? with
    | none => (none, some "empty ledger file".toList)
    | some line =>
      match decodeEntry line with
      | some e => (some e, none)
      | none => (some zeroEntry, some "unmarshal error".toList)

/-!  ## Watcher (daemon/monitor/watcher.go)

The watcher's mutable fields relevant to the claims are `lastHandoff` plus
the set of handoff files written so far (recorded here with their creation
time and whether the creating call was forced).  `NewWatcherWithConfig`
initialises `lastHandoff` to the construction time.  External effects that
can fail — `Ledger.GetLatestEntry`'s outcome and the handoff file write —
are supplied per call.  -/

/-- Mutable watcher state: `lastHandoff` and the handoff files written
(time, was the call forced). -/
structure WState where
  lastHandoff : Int
  written : List (Int × Bool)
  deriving DecidableEq, Repr

/-- Outcome of one `createHandoffIfNeeded` call.  `panicked` is the nil
dereference that `generateHandoffSummary` performs when `GetLatestEntry`
returns a `nil` entry with a `nil` error. -/
inductive HOutcome where
  | skipped
  | errored
  | panicked
  | wrote
  deriving DecidableEq, Repr

/-- Result of the `GetLatestEntry` call inside `createHandoffIfNeeded`:
`nilNil` is the (nil, nil) return on an empty glob, `errRes` any error
return, `okEntry` a successful entry. -/
inductive GetRes where
  | nilNil
  | errRes
  | okEntry
  deriving DecidableEq, Repr

/-- One invocation of the handoff-creation path: wall-clock time of the
call, the `force` flag, and the outcomes of the two fallible sub-steps. -/
structure HCall where
  time : Int
  force : Bool
  getRes : GetRes
  writeOk : Bool
  deriving DecidableEq, Repr

/-- `Watcher.createHandoffIfNeeded` (watcher.go:253-281): debounce unless
forced (minimum 30 minutes since `lastHandoff`), read the latest ledger
entry, write the handoff document, and only then update `lastHandoff`. -/
def chStep (s : WState) (c : HCall) : WState × HOutcome :=
  if c.force = false ∧ c.time - s.lastHandoff < 30 * nsPerMinute then
    (s, .skipped)
  else
    match c.getRes with
    | .errRes => (s, .errored)
    | .nilNil => (s, .panicked)
    | .okEntry =>
      if c.writeOk then
        ({ lastHandoff := c.time, written := s.written ++ [(c.time, c.force)] }, .wrote)
      else
        (s, .errored)

/-- Run a sequence of handoff-creation calls. -/
def runCalls (s : WState) (calls : List HCall) : WState :=
  calls.foldl (fun s c => (chStep s c).1) s

/-- A freshly constructed watcher (`NewWatcherWithConfig` at time `t0` sets
`lastHandoff = time.Now()`; no handoff file exists yet). -/
def initWState (t0 : Int) : WState := ⟨t0, []⟩

/-!  ### One processing cycle as an event trace  -/

/-- Observable steps of one `processLogFile` cycle. -/
inductive Event where
  | readFile (ok : Bool)
  | parseEvt
  | extractEvt (n : ℕ)
  | estimateEvt (tokens : ℕ)
  | handoffEvt (force : Bool) (outcome : HOutcome)
  | scoreEvt (i : ℕ) (imp : Int)
  | createFactEvt (i : ℕ) (imp : Int) (ok : Bool)
  | appendEvt (ok : Bool)
  deriving DecidableEq, Repr

/-- The per-fact loop body of `processWithSmartFeatures`: score the fact,
then attempt its remote creation (a failure is logged and the loop
continues). -/
def smartFactTrace (now : Int) (createOk : ℕ → Bool) (facts : List EFact) : List Event :=
  facts.enum.flatMap (fun p =>
    let imp := calculateImportance p.2.type p.2.content now now
    [.scoreEvt p.1 imp, .createFactEvt p.1 imp (createOk p.1)])

/-- `Watcher.processWithSmartFeatures` (watcher.go:194-251): evaluate the
pre-compact detector (conditionally running the handoff path), score and
remotely create each fact, then build and append one ledger entry. -/
def processWithSmartFeatures (s : WState) (now : Int) (threshold : Int)
    (facts : List EFact) (tokenCount : ℕ) (getRes : GetRes) (writeOk : Bool)
    (createOk : ℕ → Bool) (appendOk : Bool) : WState × List Event :=
  let hs := if shouldCreateHandoff threshold tokenCount then
      let p := chStep s ⟨now, false, getRes, writeOk⟩
      (p.1, [Event.handoffEvt false p.2])
    else (s, [])
  (hs.1, hs.2 ++ smartFactTrace now createOk facts ++ [.appendEvt appendOk])

/-- The per-fact loop of the non-smart branch of `processLogFile`: remote
creation with the extractor-default importance, no scoring. -/
def basicFactTrace (createOk : ℕ → Bool) (facts : List EFact) : List Event :=
  facts.enum.map (fun p => .createFactEvt p.1 p.2.importance (createOk p.1))

/-- `Watcher.processLogFile` (watcher.go:150-192): read, parse, extract,
estimate tokens, then either the smart pipeline or the basic remote-push
loop.  A read failure skips the whole cycle. -/
def processLogFile (smart : Bool) (readRes : Option Str)
    (jsonDec : Str → Option Conversation) (s : WState) (now : Int)
    (threshold : Int) (getRes : GetRes) (writeOk : Bool) (createOk : ℕ → Bool)
    (appendOk : Bool) : WState × List Event :=
  match readRes with
  | none => (s, [.readFile false])
  | some data =>
    let conv := parseConv jsonDec data
    let facts := extractFacts conv
    let tokenCount := countTokens conv
    let pre : List Event :=
      [.readFile true, .parseEvt, .extractEvt facts.length, .estimateEvt tokenCount]
    if smart then
      let p := processWithSmartFeatures s now threshold facts tokenCount getRes
        writeOk createOk appendOk
      (p.1, pre ++ p.2)
    else
      (s, pre ++ basicFactTrace createOk facts)

/-!  ### Shutdown  -/

/-- Observable actions of a `Stop` call. -/
inductive StopAct where
  | finalHandoff
  | closeWatch
  deriving DecidableEq, Repr

/-- `Watcher.Stop` (watcher.go:103-109): the forced final handoff (smart
mode only), then `watcher.Close()`. -/
def watcherStop (smart : Bool) : List StopAct :=
  (if smart then [.finalHandoff] else []) ++ [.closeWatch]

/-- `EnhancedWatcher.Stop` (watcher_enhanced.go:76-81): `watcher.Close()`
first, the forced final handoff afterwards. -/
def enhancedStop : List StopAct :=
  [.closeWatch, .finalHandoff]

/-- Recognise a ledger-append event. -/
def isAppendE : Event → Bool
  | .appendEvt _ => true
  | _ => false

/-- Recognise a handoff-path event. -/
def isHandoffE : Event → Bool
  | .handoffEvt _ _ => true
  | _ => false

/-- Index-explicit form of the smart per-fact loop, used to reason about
`smartFactTrace` by structural recursion. -/
def sftAux (now : Int) (createOk : ℕ → Bool) (k : ℕ) : List EFact → List Event
  | [] => []
  | f :: fs =>
    let imp := calculateImportance f.type f.content now now
    Event.scoreEvt k imp :: Event.createFactEvt k imp (createOk k) ::
      sftAux now createOk (k + 1) fs

/-- Index-explicit form of the basic per-fact loop. -/
def bftAux (createOk : ℕ → Bool) (k : ℕ) : List EFact → List Event
  | [] => []
  | f :: fs => Event.createFactEvt k f.importance (createOk k) :: bftAux createOk (k + 1) fs

/-!  ## Theorems  -/

/-- C7: For every fact type, content string, and creation timestamp
(including empty content and arbitrarily old or future timestamps),
`CalculateImportance` returns an integer in the range `[1,5]`. -/
theorem C7_importance_range (factType content : Str) (created now : Int) :
    1 ≤ calculateImportance factType content created now ∧
    calculateImportance factType content created now ≤ 5 := by
  simp only [calculateImportance]
  split_ifs <;> omega

/-- `ShouldCreateHandoff` decides the exact rational inequality
`currentTokens ≥ threshold * 85/100`, i.e. `20·tokens ≥ 17·threshold`. -/
theorem shouldCreateHandoff_iff (th n : Int) :
    shouldCreateHandoff th n = true ↔ 20 * n ≥ 17 * th := by
  simp only [shouldCreateHandoff, decide_eq_true_eq, ge_iff_le]
  constructor
  · intro h
    have h20 : (17 * th : ℚ) ≤ 20 * n := by linarith
    exact_mod_cast h20
  · intro h
    have h20 : ((17 * th : Int) : ℚ) ≤ ((20 * n : Int) : ℚ) := by exact_mod_cast h
    push_cast at h20
    linarith

/-- C6: `ShouldCreateHandoff(currentTokens)` returns true exactly when
`currentTokens >= threshold * 0.85`; in particular, with threshold 100 it
returns true for 85 tokens and false for 84 tokens. -/
theorem C6_should_create_handoff :
    (∀ threshold currentTokens : Int,
      shouldCreateHandoff threshold currentTokens = true ↔
        20 * currentTokens ≥ 17 * threshold) ∧
    shouldCreateHandoff 100 85 = true ∧ shouldCreateHandoff 100 84 = false := by
  refine ⟨shouldCreateHandoff_iff, (shouldCreateHandoff_iff 100 85).mpr (by norm_num), ?_⟩
  cases hb : shouldCreateHandoff 100 84 with
  | false => rfl
  | true =>
    have h := (shouldCreateHandoff_iff 100 84).mp hb
    omega

/-- C3: the claim says `GetLatestEntry` errors whenever no ledger files
exist; on the empty directory the source instead returns a `nil` entry with
a `nil` error (`return nil, err` on the empty-glob path keeps `err == nil`),
and the caller `createHandoffIfNeeded` then dereferences the `nil` entry.
The second half of the claim does hold: a lone ledger file with no non-empty
line yields the "empty ledger file" error. -/
theorem C3_getLatestEntry_eval :
    getLatestEntry [] = (none, none) ∧
    getLatestEntry [(ledgerFilename "2024-01-01".toList, [])] =
      (none, some "empty ledger file".toList) := by
  exact ⟨rfl, rfl⟩

/-- C2 counterexample: in `EnhancedWatcher.Stop` the forced final handoff
does occur, but only *after* the filesystem subscription is closed, so the
claimed handoff-before-close ordering fails for this shutdown path. -/
theorem C2_counterexample :
    StopAct.finalHandoff ∈ enhancedStop ∧
    ¬ List.indexOf StopAct.finalHandoff enhancedStop <
        List.indexOf StopAct.closeWatch enhancedStop := by
  decide

/-- C2 (amended): on the shutdown signal the basic `Watcher.Stop` runs the
forced final handoff first (only in smart mode) and closes the subscription
afterwards; the `EnhancedWatcher.Stop` variant closes the subscription
first and runs the forced final handoff afterwards. -/
theorem C2_amended_stop_order :
    List.indexOf StopAct.finalHandoff (watcherStop true) <
      List.indexOf StopAct.closeWatch (watcherStop true) ∧
    StopAct.finalHandoff ∉ watcherStop false ∧
    StopAct.closeWatch ∈ watcherStop false ∧
    List.indexOf StopAct.closeWatch enhancedStop <
      List.indexOf StopAct.finalHandoff enhancedStop ∧
    StopAct.closeWatch ∈ enhancedStop := by
  decide

/-- The Go stale-days map agrees with the claim's enumerated threshold
table, including the default 30 for unknown types. -/
theorem lookupStaleDays_eq (ft : Str) :
    lookupStaleDays ft =
      (if ft = "blocker".toList then 3
       else if ft = "todo".toList then 7
       else if ft = "file_change".toList then 14
       else if ft = "dependency".toList then 30
       else if ft = "decision".toList then 90
       else if ft = "insight".toList then 60
       else 30) := by
  by_cases h1 : ft = "blocker".toList
  · simp [lookupStaleDays, staleDaysTable, List.lookup, h1]
  · by_cases h2 : ft = "todo".toList
    · simp [lookupStaleDays, staleDaysTable, List.lookup, h1, h2]
    · by_cases h3 : ft = "file_change".toList
      · simp [lookupStaleDays, staleDaysTable, List.lookup, h1, h2, h3]
      · by_cases h4 : ft = "dependency".toList
        · simp [lookupStaleDays, staleDaysTable, List.lookup, h1, h2, h3, h4]
        · by_cases h5 : ft = "decision".toList
          · simp [lookupStaleDays, staleDaysTable, List.lookup, h1, h2, h3, h4, h5]
          · by_cases h6 : ft = "insight".toList
            · simp [lookupStaleDays, staleDaysTable, List.lookup, h1, h2, h3, h4, h5, h6]
            · simp only [lookupStaleDays, staleDaysTable, List.lookup]
              rw [beq_eq_false_iff_ne.mpr h1, beq_eq_false_iff_ne.mpr h2,
                beq_eq_false_iff_ne.mpr h3, beq_eq_false_iff_ne.mpr h4,
                beq_eq_false_iff_ne.mpr h5, beq_eq_false_iff_ne.mpr h6]
              split_ifs
              simp_all

/-- C8: `IsStale(type, createdAt, content)` returns true immediately,
regardless of age, when type is blocker and content contains "resolved"
(case-insensitive) or type is todo and content contains "done"; otherwise
it returns true exactly when `now - createdAt` exceeds the per-type
threshold in days (blocker 3, todo 7, file_change 14, dependency 30,
decision 90, insight 60, unknown type 30). -/
theorem C8_isStale_matches_spec (ft : Str) (created : Int) (content : Str) (now : Int) :
    isStale ft created content now = claimStale ft created content now := by
  simp only [isStale, claimStale, lookupStaleDays_eq]

/-- C4 counterexample: the source parser matches the role markers only in
the two literal casings `User:`/`user:` (resp. `Assistant:`/`assistant:`),
not case-insensitively: on the input `"USER: hi"` the claim's
case-insensitive reading produces one user message while `parseText`
produces none. -/
theorem C4_counterexample :
    parseText "USER: hi".toList ≠ parseTextClaim "USER: hi".toList ∧
    parseText "USER: hi".toList = [] ∧
    parseTextClaim "USER: hi".toList = [⟨"user".toList, " hi".toList⟩] := by
  refine ⟨?_, by decide, by decide⟩
  decide

/-- Each line step of the source scanner agrees with the amended claim's
line step. -/
theorem textLine_eq_amendedLine (st : PState) (raw : Str) :
    textLine st raw = amendedLine st raw := by
  simp only [textLine, amendedLine]
  by_cases h0 : trimStr raw = []
  · rw [if_pos h0, if_pos h0]
  · rw [if_neg h0, if_neg h0]
    by_cases hU : "User:".toList.isPrefixOf (trimStr raw) = true
    · rw [if_pos (Or.inl hU), if_pos hU]
      simp only [trimPre]
      rw [if_pos hU]
      rfl
    · by_cases hu : "user:".toList.isPrefixOf (trimStr raw) = true
      · rw [if_pos (Or.inr hu), if_neg hU, if_pos hu]
        simp only [trimPre]
        rw [if_neg hU, if_pos hu]
        rfl
      · rw [if_neg (not_or.mpr ⟨hU, hu⟩), if_neg hU, if_neg hu]
        by_cases hA : "Assistant:".toList.isPrefixOf (trimStr raw) = true
        · rw [if_pos (Or.inl hA), if_pos hA]
          simp only [trimPre]
          rw [if_pos hA]
          rfl
        · by_cases ha : "assistant:".toList.isPrefixOf (trimStr raw) = true
          · rw [if_pos (Or.inr ha), if_neg hA, if_pos ha]
            simp only [trimPre]
            rw [if_neg hA, if_pos ha]
            rfl
          · rw [if_neg (not_or.mpr ⟨hA, ha⟩), if_neg hA, if_neg ha]

/-- C4 (amended): for every input text, the fallback parser recognises
exactly the four literal markers `User:`, `user:`, `Assistant:`,
`assistant:` at the start of a trimmed line; such a line opens a new
message with that role whose initial content is the line with the
upper-case marker stripped and then a remaining lower-case marker stripped
as well (only the lower-case marker is stripped when it appears alone);
every other non-empty trimmed line is newline-appended to the currently
open message (and dropped when none is open); blank lines are ignored. -/
theorem C4_amended_parseText (data : Str) :
    parseText data = parseTextAmended data := by
  have h : textLine = amendedLine := by
    funext st raw
    exact textLine_eq_amendedLine st raw
  simp [parseText, parseTextAmended, h]

/-- Unmarshalling inverts marshalling on one fact. -/
theorem decodeFact_encodeFact (f : LFact) : decodeFact (encodeFact f) = some f := rfl

theorem mapM_loop_decodeFact (l : List LFact) (acc : List LFact) :
    List.mapM.loop decodeFact (l.map encodeFact) acc = some (acc.reverse ++ l) := by
  induction l generalizing acc with
  | nil => simp [List.mapM.loop]
  | cons f fs ih =>
    simp [List.mapM.loop, decodeFact_encodeFact, ih]

theorem mapM_decodeFact (l : List LFact) :
    (l.map encodeFact).mapM decodeFact = some l := by
  simp [List.mapM, mapM_loop_decodeFact]

theorem mapM_loop_jStr (l : List Str) (acc : List Str) :
    List.mapM.loop jStr? (l.map Jval.jstr) acc = some (acc.reverse ++ l) := by
  induction l generalizing acc with
  | nil => simp [List.mapM.loop]
  | cons s ss ih =>
    simp [List.mapM.loop, jStr?, ih]

theorem mapM_jStr (l : List Str) :
    (l.map Jval.jstr).mapM jStr? = some l := by
  simp [List.mapM, mapM_loop_jStr]

/-- Unmarshalling inverts marshalling on a whole ledger entry. -/
theorem decodeEntry_encodeEntry (e : LedgerEntry) :
    decodeEntry (encodeEntry e) = some e := by
  obtain ⟨ts, sid, pid, tc, fs, ctx, ds, ns, bs, fc⟩ := e
  simp [decodeEntry, encodeEntry, jNum?, jStr?, jCtx?, jFacts?, jStrList?,
    mapM_decodeFact, mapM_jStr, mapM_loop_decodeFact, mapM_loop_jStr]

/-- Today's ledger filename matches the `CONTINUITY_*.jsonl` glob. -/
theorem matchesGlob_ledgerFilename (today : Str) :
    matchesGlob (ledgerFilename today) = true := by
  simp only [matchesGlob, ledgerFilename, Bool.and_eq_true]
  constructor
  · exact List.isPrefixOf_iff_prefix.mpr ⟨today ++ ".jsonl".toList, by simp⟩
  · exact List.isSuffixOf_iff_suffix.mpr
      ((List.suffix_append today ".jsonl".toList).trans
        (List.suffix_append "CONTINUITY_".toList _))

/-- C10: for every `LedgerEntry`, appending it to a freshly created ledger
and then calling `GetLatestEntry` returns a value deep-equal to the entry
that was appended. -/
theorem C10_append_getLatest_roundtrip (e : LedgerEntry) (today : Str) :
    getLatestEntry (appendEntry today e []) = (some e, none) := by
  simp [appendEntry, appendLine, getLatestEntry, sortStrs, insertSorted,
    matchesGlob_ledgerFilename, List.lookup, decodeEntry_encodeEntry]

/-!  ### Correctness of the compressor's exchange sort  -/

theorem factLt_iff (a b : CompressibleFact) : factLt a b = true ↔
    (a.importance < b.importance ∨ (a.importance = b.importance ∧ a.created < b.created)) := by
  simp [factLt]

theorem factLt_false_iff (a b : CompressibleFact) : factLt a b = false ↔
    ¬(a.importance < b.importance ∨ (a.importance = b.importance ∧ a.created < b.created)) := by
  rw [← Bool.not_eq_true, factLt_iff]

theorem factLt_irrefl (a : CompressibleFact) : factLt a a = false := by
  rw [factLt_false_iff]
  omega

theorem factLt_shift (c y m : CompressibleFact) (h1 : factLt c y = true)
    (h2 : factLt m y = false) : factLt m c = false := by
  rw [factLt_iff] at h1
  rw [factLt_false_iff] at h2 ⊢
  omega

theorem factLt_shift2 (c y m : CompressibleFact) (h1 : factLt c y = false)
    (h2 : factLt m c = false) : factLt m y = false := by
  rw [factLt_false_iff] at h1 h2 ⊢
  omega

/-- One `selectPass` is a permutation: the extracted maximum plus the
shuffled tail rearrange the input slot and tail. -/
theorem selectPass_perm (c : CompressibleFact) (l : List CompressibleFact) :
    List.Perm ((selectPass c l).1 :: (selectPass c l).2) (c :: l) := by
  induction l generalizing c with
  | nil => rfl
  | cons y ys ih =>
    simp only [selectPass]
    split
    · exact (List.Perm.swap c (selectPass y ys).1 (selectPass y ys).2).trans ((ih y).cons c)
    · exact ((List.Perm.swap y (selectPass c ys).1 (selectPass c ys).2).trans
        ((ih c).cons y)).trans (List.Perm.swap c y ys)

/-- The element extracted by `selectPass` is maximal for the source's swap
order. -/
theorem selectPass_max (l : List CompressibleFact) :
    ∀ (c : CompressibleFact), ∀ x ∈ c :: l, factLt (selectPass c l).1 x = false := by
  induction l with
  | nil =>
    intro c x hx
    have hxc : x = c := by simpa using hx
    rw [hxc]
    exact factLt_irrefl c
  | cons y ys ih =>
    intro c x hx
    simp only [selectPass]
    split
    · rename_i hcy
      rcases List.mem_cons.mp hx with hxc | hx'
      · rw [hxc]
        exact factLt_shift c y _ hcy (ih y y (List.mem_cons_self y ys))
      · exact ih y x hx'
    · rename_i hcy
      have hcy' : factLt c y = false := by
        revert hcy
        cases factLt c y <;> simp
      rcases List.mem_cons.mp hx with hxc | hx'
      · rw [hxc]
        exact ih c c (List.mem_cons_self c ys)
      · rcases List.mem_cons.mp hx' with hxy | hx''
        · rw [hxy]
          exact factLt_shift2 c y _ hcy' (ih c c (List.mem_cons_self c ys))
        · exact ih c x (List.mem_cons.mpr (Or.inr hx''))

/-- The exchange sort permutes its input. -/
theorem sortByImportance_perm (l : List CompressibleFact) :
    List.Perm (sortByImportance l) l := by
  induction l using sortByImportance.induct with
  | case1 => simp [sortByImportance]
  | case2 x xs p ih =>
    rw [sortByImportance]
    exact (List.Perm.cons _ ih).trans (selectPass_perm x xs)

/-- The exchange sort is sorted: descending by importance, ties broken by
more recent `created` first (no later element is `factLt`-above an earlier
one). -/
theorem sortByImportance_sorted (l : List CompressibleFact) :
    List.Pairwise (fun a b => factLt a b = false) (sortByImportance l) := by
  induction l using sortByImportance.induct with
  | case1 => simp [sortByImportance]
  | case2 x xs p ih =>
    rw [sortByImportance]
    refine List.Pairwise.cons ?_ ih
    intro z hz
    have hz1 : z ∈ (selectPass x xs).2 := (sortByImportance_perm _).mem_iff.mp hz
    have hz2 : z ∈ x :: xs :=
      (selectPass_perm x xs).mem_iff.mp (List.mem_cons_of_mem _ hz1)
    exact selectPass_max xs x z hz2

/-- Every fact kept by `compress` comes from the non-stale input facts. -/
theorem mem_compress (N : ℕ) (facts : List CompressibleFact) (f : CompressibleFact)
    (hf : f ∈ compress N facts) :
    f ∈ facts.filter (fun g => !g.stale) := by
  simp only [compress] at hf
  obtain ⟨u, _, hfu⟩ := List.mem_flatMap.mp hf
  have h1 : f ∈ sortByImportance ((facts.filter (fun g => !g.stale)).filter
      (fun g => g.type = u)) := List.mem_of_mem_take hfu
  have h2 := (sortByImportance_perm _).mem_iff.mp h1
  exact (List.mem_filter.mp h2).1

/-- Every fact in the chunk for group `u` has type `u`. -/
theorem mem_chunk_type (N : ℕ) (kept : List CompressibleFact) (u : Str)
    (f : CompressibleFact)
    (hf : f ∈ (sortByImportance (kept.filter (fun g => g.type = u))).take N) :
    f.type = u := by
  have h1 := List.mem_of_mem_take hf
  have h2 := (sortByImportance_perm _).mem_iff.mp h1
  have h3 := (List.mem_filter.mp h2).2
  simpa using h3

theorem filter_flatMap_comm {α β : Type} (p : β → Bool) (g : α → List β) (l : List α) :
    (l.flatMap g).filter p = l.flatMap (fun x => (g x).filter p) := by
  induction l with
  | nil => rfl
  | cons x xs ih => simp [List.flatMap_cons, List.filter_append, ih]

/-- The per-type projection of `compress`: exactly the first `N` elements of
the exchange-sorted group of that type. -/
theorem compress_filter_type (N : ℕ) (facts : List CompressibleFact) (t : Str) :
    (compress N facts).filter (fun f => f.type = t) =
      (sortByImportance ((facts.filter (fun f => !f.stale)).filter
        (fun f => f.type = t))).take N := by
  simp only [compress]
  rw [filter_flatMap_comm]
  have key : ∀ (us : List Str), us.Nodup →
      (us.flatMap fun u =>
        ((sortByImportance ((facts.filter (fun f => !f.stale)).filter
          (fun f => f.type = u))).take N).filter (fun f => f.type = t)) =
      if t ∈ us then
        (sortByImportance ((facts.filter (fun f => !f.stale)).filter
          (fun f => f.type = t))).take N
      else [] := by
    intro us
    induction us with
    | nil => simp
    | cons u rest ih =>
      intro hnd
      rcases List.nodup_cons.mp hnd with ⟨hu, hnd'⟩
      rw [List.flatMap_cons, ih hnd']
      by_cases hut : u = t
      · subst hut
        have hrest : u ∉ rest := hu
        rw [if_neg hrest, if_pos (List.mem_cons_self u rest)]
        rw [List.filter_eq_self.mpr (fun f hf => by
          simp [mem_chunk_type N _ u f hf])]
        simp
      · rw [List.filter_eq_nil_iff.mpr (fun f hf => by
          have := mem_chunk_type N _ u f hf
          simp [this, hut])]
        by_cases hmem : t ∈ rest
        · rw [if_pos hmem, if_pos (List.mem_cons_of_mem u hmem)]
          simp
        · rw [if_neg hmem, if_neg (by
            intro hc
            rcases List.mem_cons.mp hc with hc1 | hc2
            · exact hut hc1.symm
            · exact hmem hc2)]
          simp
  rw [key (typesInOrder (facts.filter (fun f => !f.stale)))
    (by simp only [typesInOrder]; exact List.nodup_dedup _)]
  by_cases hmem : t ∈ typesInOrder (facts.filter (fun f => !f.stale))
  · rw [if_pos hmem]
  · rw [if_neg hmem]
    have hgrp : (facts.filter (fun f => !f.stale)).filter (fun f => f.type = t) = [] := by
      rw [List.filter_eq_nil_iff]
      intro f hf hft
      apply hmem
      simp only [typesInOrder, List.mem_dedup]
      exact List.mem_map.mpr ⟨f, hf, by simpa using hft⟩
    rw [hgrp]
    simp [sortByImportance]

/-- C9: for every input list and per-type cap N, `Compress` returns at most
N facts of any single type and never returns a stale fact; within each type
the retained facts are exactly the first N of the group sorted descending
by importance with ties broken by more recent created-time first. -/
theorem C9_compress_spec (N : ℕ) (facts : List CompressibleFact) (t : Str) :
    (compress N facts).filter (fun f => f.stale) = [] ∧
    (compress N facts).countP (fun f => f.type = t) ≤ N ∧
    (compress N facts).filter (fun f => f.type = t) =
      (sortByImportance ((facts.filter (fun f => !f.stale)).filter
        (fun f => f.type = t))).take N ∧
    List.Pairwise (fun a b => factLt a b = false)
      ((compress N facts).filter (fun f => f.type = t)) := by
  refine ⟨?_, ?_, compress_filter_type N facts t, ?_⟩
  · rw [List.filter_eq_nil_iff]
    intro f hf
    have := (List.mem_filter.mp (mem_compress N facts f hf)).2
    simp_all
  · rw [List.countP_eq_length_filter, compress_filter_type N facts t]
    exact List.length_take_le N _
  · rw [compress_filter_type N facts t]
    exact List.Pairwise.sublist (List.take_sublist N _) (sortByImportance_sorted _)

/-!  ### Handoff debounce (C5)  -/

/-- A non-forced call inside the 30-minute window is debounced. -/
theorem chStep_skip (s : WState) (c : HCall) (hf : c.force = false)
    (hlt : c.time - s.lastHandoff < 30 * nsPerMinute) :
    chStep s c = (s, .skipped) := by
  unfold chStep
  rw [if_pos ⟨hf, hlt⟩]

/-- A call past the debounce check with a good ledger read and a good write
creates the handoff and advances `lastHandoff`. -/
theorem chStep_write (s : WState) (c : HCall)
    (h30 : ¬(c.force = false ∧ c.time - s.lastHandoff < 30 * nsPerMinute))
    (hok : c.getRes = .okEntry) (hw : c.writeOk = true) :
    chStep s c =
      ({ lastHandoff := c.time, written := s.written ++ [(c.time, c.force)] }, .wrote) := by
  unfold chStep
  rw [if_neg h30, hok, hw]
  simp

/-- Any single call either leaves the state unchanged or appends exactly one
handoff record, and a write requires force or a 30-minute gap. -/
theorem chStep_cases (s : WState) (c : HCall) :
    (chStep s c).1 = s ∨
    ((chStep s c).1.lastHandoff = c.time ∧
      (chStep s c).1.written = s.written ++ [(c.time, c.force)] ∧
      (c.force = true ∨ 30 * nsPerMinute ≤ c.time - s.lastHandoff)) := by
  unfold chStep
  by_cases h : c.force = false ∧ c.time - s.lastHandoff < 30 * nsPerMinute
  · rw [if_pos h]
    exact Or.inl rfl
  · rw [if_neg h]
    cases hgr : c.getRes with
    | errRes => exact Or.inl rfl
    | nilNil => exact Or.inl rfl
    | okEntry =>
      cases hw : c.writeOk with
      | false => exact Or.inl rfl
      | true =>
        refine Or.inr ⟨rfl, rfl, ?_⟩
        by_cases hf : c.force = false
        · right
          rcases not_and_or.mp h with h1 | h2
          · exact absurd hf h1
          · omega
        · left
          revert hf
          cases c.force <;> simp

/-- C5 counterexample: a watcher constructed at time 0 initialises
`lastHandoff` to the construction time, so two non-forced calls at minutes
1 and 5 — within 10 minutes of each other, with the ledger read and the
file write both succeeding — write zero handoff files, not exactly one. -/
theorem C5_counterexample :
    (runCalls (initWState 0)
      [⟨1 * nsPerMinute, false, .okEntry, true⟩,
       ⟨5 * nsPerMinute, false, .okEntry, true⟩]).written.length = 0 ∧
    5 * nsPerMinute - 1 * nsPerMinute < 10 * nsPerMinute := by
  exact ⟨rfl, by decide⟩

/-- Invariant for the 30-minute claim: every recorded handoff time is at
most `lastHandoff`, and any non-forced handoff is at least 30 minutes after
every earlier one. -/
theorem runCalls_invariant (calls : List HCall) : ∀ (s : WState),
    List.Pairwise (fun a b => a.time ≤ b.time) calls →
    (∀ c ∈ calls, s.lastHandoff ≤ c.time) →
    (∀ p ∈ s.written, p.1 ≤ s.lastHandoff) →
    List.Pairwise (fun a b => b.2 = false → 30 * nsPerMinute ≤ b.1 - a.1) s.written →
    (List.Pairwise (fun a b => b.2 = false → 30 * nsPerMinute ≤ b.1 - a.1)
        (runCalls s calls).written ∧
      ∀ p ∈ (runCalls s calls).written, p.1 ≤ (runCalls s calls).lastHandoff) := by
  induction calls with
  | nil =>
    intro s _ _ h1 h2
    exact ⟨h2, h1⟩
  | cons c rest ih =>
    intro s hpw hge h1 h2
    rcases List.pairwise_cons.mp hpw with ⟨hc, hpw'⟩
    have hsc : s.lastHandoff ≤ c.time := hge c (List.mem_cons_self c rest)
    simp only [runCalls, List.foldl_cons] at *
    rcases chStep_cases s c with heq | ⟨hlh, hwr, hside⟩
    · rw [heq]
      exact ih s hpw' (fun c' hc' => hge c' (List.mem_cons_of_mem c hc')) h1 h2
    · apply ih
      · exact hpw'
      · intro c' hc'
        rw [hlh]
        exact hc c' hc'
      · intro p hp
        rw [hwr] at hp
        rw [hlh]
        rcases List.mem_append.mp hp with hpold | hpnew
        · exact le_trans (h1 p hpold) hsc
        · have : p = (c.time, c.force) := by simpa using hpnew
          rw [this]
      · rw [hwr]
        rw [List.pairwise_append]
        refine ⟨h2, by simp, ?_⟩
        intro a ha b hb
        have hbeq : b = (c.time, c.force) := by simpa using hb
        subst hbeq
        intro hbf
        have h30 : 30 * nsPerMinute ≤ c.time - s.lastHandoff := by
          rcases hside with hf | h30
          · rw [hf] at hbf
            exact absurd hbf (by simp)
          · exact h30
        have := h1 a ha
        omega

/-- C5 (amended): within one 30-minute window two non-forced calls to the
handoff-creation path write at most one handoff file, and exactly one when
the first call comes at least 30 minutes after the recorded `lastHandoff`
(initialised to the construction time) and its ledger read and file write
succeed; over any monotone call sequence from a fresh watcher, a successful
non-forced handoff is at least 30 minutes after every earlier handoff; and
`force=true` bypasses the debounce unconditionally. -/
theorem C5_amended_debounce :
    (∀ (s : WState) (c1 c2 : HCall),
      c1.force = false → c2.force = false → c1.time ≤ c2.time →
      c2.time - c1.time < 10 * nsPerMinute →
      ((runCalls s [c1, c2]).written.length ≤ s.written.length + 1 ∧
        (30 * nsPerMinute ≤ c1.time - s.lastHandoff → c1.getRes = .okEntry →
          c1.writeOk = true →
          (runCalls s [c1, c2]).written = s.written ++ [(c1.time, false)]))) ∧
    (∀ (s0 : WState) (calls : List HCall),
      s0.written = [] →
      List.Pairwise (fun a b => a.time ≤ b.time) calls →
      (∀ c ∈ calls, s0.lastHandoff ≤ c.time) →
      List.Pairwise (fun a b => b.2 = false → 30 * nsPerMinute ≤ b.1 - a.1)
        (runCalls s0 calls).written) ∧
    (∀ (s : WState) (c : HCall), c.force = true →
      ((chStep s c).2 ≠ .skipped ∧
        (c.getRes = .okEntry → c.writeOk = true → (chStep s c).2 = .wrote))) := by
  refine ⟨?_, ?_, ?_⟩
  · intro s c1 c2 h1f h2f hle hgap
    simp only [runCalls, List.foldl_cons, List.foldl_nil]
    by_cases hd1 : c1.time - s.lastHandoff < 30 * nsPerMinute
    · rw [chStep_skip s c1 h1f hd1]
      constructor
      · rcases chStep_cases s c2 with heq | ⟨_, hwr, _⟩
        · rw [heq]
          omega
        · rw [hwr]
          simp
      · intro h30
        omega
    · constructor
      · rcases chStep_cases s c1 with heq1 | ⟨hlh1, hwr1, _⟩
        · rw [heq1]
          rcases chStep_cases s c2 with heq2 | ⟨_, hwr2, _⟩
          · rw [heq2]
            omega
          · rw [hwr2]
            simp
        · have hskip : chStep (chStep s c1).1 c2 = ((chStep s c1).1, .skipped) := by
            apply chStep_skip _ _ h2f
            rw [hlh1]
            omega
          rw [hskip, hwr1]
          simp
      · intro h30 hok hw
        have hw1 : chStep s c1 =
            ({ lastHandoff := c1.time, written := s.written ++ [(c1.time, c1.force)] },
              .wrote) := by
          apply chStep_write s c1 _ hok hw
          intro ⟨_, hcon⟩
          omega
        rw [hw1]
        rw [chStep_skip _ c2 h2f (by show c2.time - c1.time < 30 * nsPerMinute; omega)]
        rw [h1f]
  · intro s0 calls hw0 hpw hge
    have h := runCalls_invariant calls s0 hpw hge
      (by rw [hw0]; intro p hp; simp at hp) (by rw [hw0]; exact List.Pairwise.nil)
    exact h.1
  · intro s c hforce
    have hnot : ¬(c.force = false ∧ c.time - s.lastHandoff < 30 * nsPerMinute) := by
      intro ⟨h1, _⟩
      rw [hforce] at h1
      exact Bool.true_eq_false.mp h1
    constructor
    · unfold chStep
      rw [if_neg hnot]
      cases c.getRes with
      | errRes => simp
      | nilNil => simp
      | okEntry =>
        cases c.writeOk <;> simp
    · intro hok hw
      rw [chStep_write s c hnot hok hw]

/-- Concrete instance of the amended C5 debounce theorem: from a fresh
watcher, calls at minutes 30 and 35 (both non-forced, both succeeding)
write exactly the one handoff at minute 30. -/
theorem C5_amended_witness :
    (runCalls (initWState 0)
      [⟨30 * nsPerMinute, false, .okEntry, true⟩,
       ⟨35 * nsPerMinute, false, .okEntry, true⟩]).written =
      [(30 * nsPerMinute, false)] := by
  have h := (C5_amended_debounce.1 (initWState 0)
    ⟨30 * nsPerMinute, false, .okEntry, true⟩
    ⟨35 * nsPerMinute, false, .okEntry, true⟩ rfl rfl (by decide) (by decide)).2
    (by decide) rfl rfl
  simpa [initWState] using h

/-!  ### One processing cycle (C1)  -/

theorem smartFactTrace_eq (now : Int) (createOk : ℕ → Bool) (l : List EFact) :
    smartFactTrace now createOk l = sftAux now createOk 0 l := by
  have h : ∀ (m : List EFact) (k : ℕ), (List.enumFrom k m).flatMap (fun p =>
      let imp := calculateImportance p.2.type p.2.content now now
      [Event.scoreEvt p.1 imp, Event.createFactEvt p.1 imp (createOk p.1)]) =
      sftAux now createOk k m := by
    intro m
    induction m with
    | nil => intro k; rfl
    | cons f fs ih =>
      intro k
      simp [List.enumFrom_cons, List.flatMap_cons, sftAux, ih]
  rw [smartFactTrace, List.enum_eq_enumFrom, h l 0]

theorem basicFactTrace_eq (createOk : ℕ → Bool) (l : List EFact) :
    basicFactTrace createOk l = bftAux createOk 0 l := by
  have h : ∀ (m : List EFact) (k : ℕ), (List.enumFrom k m).map (fun p =>
      Event.createFactEvt p.1 p.2.importance (createOk p.1)) = bftAux createOk k m := by
    intro m
    induction m with
    | nil => intro k; rfl
    | cons f fs ih =>
      intro k
      simp [List.enumFrom_cons, bftAux, ih]
  rw [basicFactTrace, List.enum_eq_enumFrom, h l 0]

/-- For every position in the fact list, the smart loop scores that fact and
then attempts its remote creation, regardless of the per-fact success
oracle. -/
theorem sftAux_sublist (now : Int) (createOk : ℕ → Bool) :
    ∀ (l : List EFact) (k i : ℕ) (f : EFact), l[i]? = some f →
      List.Sublist
        [Event.scoreEvt (k + i) (calculateImportance f.type f.content now now),
         Event.createFactEvt (k + i) (calculateImportance f.type f.content now now)
           (createOk (k + i))]
        (sftAux now createOk k l) := by
  intro l
  induction l with
  | nil =>
    intro k i f h
    simp at h
  | cons g gs ih =>
    intro k i f h
    cases i with
    | zero =>
      rw [List.getElem?_cons_zero] at h
      injection h with h
      subst h
      simp only [sftAux, Nat.add_zero]
      exact ((List.nil_sublist _).cons₂ _).cons₂ _
    | succ j =>
      rw [List.getElem?_cons_succ] at h
      have hs := ih (k + 1) j f h
      simp only [sftAux]
      have heq : k + (j + 1) = (k + 1) + j := by omega
      rw [heq]
      exact (hs.cons _).cons _

theorem bftAux_mem (createOk : ℕ → Bool) :
    ∀ (l : List EFact) (k i : ℕ) (f : EFact), l[i]? = some f →
      Event.createFactEvt (k + i) f.importance (createOk (k + i)) ∈ bftAux createOk k l := by
  intro l
  induction l with
  | nil =>
    intro k i f h
    simp at h
  | cons g gs ih =>
    intro k i f h
    cases i with
    | zero =>
      rw [List.getElem?_cons_zero] at h
      injection h with h
      subst h
      simp only [bftAux, Nat.add_zero]
      exact List.mem_cons_self _ _
    | succ j =>
      rw [List.getElem?_cons_succ] at h
      have hs := ih (k + 1) j f h
      simp only [bftAux]
      have heq : k + (j + 1) = (k + 1) + j := by omega
      rw [heq]
      exact List.mem_cons_of_mem _ hs

/-- No event of the smart per-fact loop is a ledger append or a handoff. -/
theorem sftAux_events (now : Int) (createOk : ℕ → Bool) :
    ∀ (l : List EFact) (k : ℕ) (e : Event), e ∈ sftAux now createOk k l →
      isAppendE e = false ∧ isHandoffE e = false := by
  intro l
  induction l with
  | nil =>
    intro k e he
    simp [sftAux] at he
  | cons g gs ih =>
    intro k e he
    simp only [sftAux, List.mem_cons] at he
    rcases he with rfl | rfl | he
    · exact ⟨rfl, rfl⟩
    · exact ⟨rfl, rfl⟩
    · exact ih (k + 1) e he

/-- No event of the basic per-fact loop is a ledger append or a handoff. -/
theorem bftAux_events (createOk : ℕ → Bool) :
    ∀ (l : List EFact) (k : ℕ) (e : Event), e ∈ bftAux createOk k l →
      isAppendE e = false ∧ isHandoffE e = false := by
  intro l
  induction l with
  | nil =>
    intro k e he
    simp [bftAux] at he
  | cons g gs ih =>
    intro k e he
    simp only [bftAux, List.mem_cons] at he
    rcases he with rfl | he
    · exact ⟨rfl, rfl⟩
    · exact ih (k + 1) e he

/-- The smart-mode trace of one successful read, decomposed. -/
theorem processLogFile_smart_trace (data : Str) (jsonDec : Str → Option Conversation)
    (s : WState) (now threshold : Int) (getRes : GetRes) (writeOk : Bool)
    (createOk : ℕ → Bool) (appendOk : Bool) :
    (processLogFile true (some data) jsonDec s now threshold getRes writeOk
      createOk appendOk).2 =
    [Event.readFile true, Event.parseEvt,
      Event.extractEvt (extractFacts (parseConv jsonDec data)).length,
      Event.estimateEvt (countTokens (parseConv jsonDec data))] ++
    (if shouldCreateHandoff threshold (countTokens (parseConv jsonDec data)) then
      [Event.handoffEvt false (chStep s ⟨now, false, getRes, writeOk⟩).2]
    else []) ++
    smartFactTrace now createOk (extractFacts (parseConv jsonDec data)) ++
    [Event.appendEvt appendOk] := by
  by_cases hsc :
      shouldCreateHandoff threshold (countTokens (parseConv jsonDec data)) = true
  · simp [processLogFile, processWithSmartFeatures, hsc]
  · rw [Bool.not_eq_true] at hsc
    simp [processLogFile, processWithSmartFeatures, hsc]

/-- The basic-mode trace of one successful read, decomposed. -/
theorem processLogFile_basic_trace (data : Str) (jsonDec : Str → Option Conversation)
    (s : WState) (now threshold : Int) (getRes : GetRes) (writeOk : Bool)
    (createOk : ℕ → Bool) (appendOk : Bool) :
    (processLogFile false (some data) jsonDec s now threshold getRes writeOk
      createOk appendOk).2 =
    [Event.readFile true, Event.parseEvt,
      Event.extractEvt (extractFacts (parseConv jsonDec data)).length,
      Event.estimateEvt (countTokens (parseConv jsonDec data))] ++
    basicFactTrace createOk (extractFacts (parseConv jsonDec data)) := by
  simp [processLogFile]

/-- C1: in smart mode a processing cycle of a readable file runs the fixed
sequence read, parse, extract, estimate; scores every fact before its
remote creation is attempted (a single remote-creation failure does not
abort the batch: every position gets its creation event regardless of the
success oracle); and appends exactly one ledger entry, as the final step.
With smart mode off, facts are pushed with the extractor-default importance
and no ledger append or handoff event occurs. -/
theorem C1_processing_cycle (data : Str) (jsonDec : Str → Option Conversation)
    (s : WState) (now threshold : Int) (getRes : GetRes) (writeOk : Bool)
    (createOk : ℕ → Bool) (appendOk : Bool) :
    ((processLogFile true (some data) jsonDec s now threshold getRes writeOk
        createOk appendOk).2.countP isAppendE = 1) ∧
    ((processLogFile true (some data) jsonDec s now threshold getRes writeOk
        createOk appendOk).2.getLast? = some (Event.appendEvt appendOk)) ∧
    ((processLogFile true (some data) jsonDec s now threshold getRes writeOk
        createOk appendOk).2.take 4 =
      [Event.readFile true, Event.parseEvt,
       Event.extractEvt (extractFacts (parseConv jsonDec data)).length,
       Event.estimateEvt (countTokens (parseConv jsonDec data))]) ∧
    (∀ (i : ℕ) (f : EFact), (extractFacts (parseConv jsonDec data))[i]? = some f →
      List.Sublist
        [Event.scoreEvt i (calculateImportance f.type f.content now now),
         Event.createFactEvt i (calculateImportance f.type f.content now now)
           (createOk i)]
        (processLogFile true (some data) jsonDec s now threshold getRes writeOk
          createOk appendOk).2) ∧
    ((processLogFile false (some data) jsonDec s now threshold getRes writeOk
        createOk appendOk).2.countP isAppendE = 0 ∧
      (processLogFile false (some data) jsonDec s now threshold getRes writeOk
        createOk appendOk).2.countP isHandoffE = 0 ∧
      ∀ (i : ℕ) (f : EFact), (extractFacts (parseConv jsonDec data))[i]? = some f →
        Event.createFactEvt i f.importance (createOk i) ∈
          (processLogFile false (some data) jsonDec s now threshold getRes writeOk
            createOk appendOk).2) := by
  rw [processLogFile_smart_trace, processLogFile_basic_trace]
  refine ⟨?_, ?_, ?_, ?_, ?_, ?_, ?_⟩
  · rw [List.countP_append, List.countP_append, List.countP_append]
    have h1 : List.countP isAppendE
        [Event.readFile true, Event.parseEvt,
         Event.extractEvt (extractFacts (parseConv jsonDec data)).length,
         Event.estimateEvt (countTokens (parseConv jsonDec data))] = 0 := rfl
    have h2 : List.countP isAppendE
        (if shouldCreateHandoff threshold (countTokens (parseConv jsonDec data)) then
          [Event.handoffEvt false (chStep s ⟨now, false, getRes, writeOk⟩).2]
        else []) = 0 := by
      split <;> rfl
    have h3 : List.countP isAppendE
        (smartFactTrace now createOk (extractFacts (parseConv jsonDec data))) = 0 := by
      rw [smartFactTrace_eq, List.countP_eq_zero]
      intro e he
      simp [(sftAux_events now createOk _ 0 e he).1]
    rw [h1, h2, h3]
    rfl
  · exact List.getLast?_concat _
  · rfl
  · intro i f hf
    have hs := sftAux_sublist now createOk (extractFacts (parseConv jsonDec data)) 0 i f hf
    rw [Nat.zero_add] at hs
    rw [← smartFactTrace_eq] at hs
    exact (hs.trans (List.sublist_append_right _ _)).trans (List.sublist_append_left _ _)
  · rw [List.countP_append]
    have h1 : List.countP isAppendE
        [Event.readFile true, Event.parseEvt,
         Event.extractEvt (extractFacts (parseConv jsonDec data)).length,
         Event.estimateEvt (countTokens (parseConv jsonDec data))] = 0 := rfl
    have h2 : List.countP isAppendE
        (basicFactTrace createOk (extractFacts (parseConv jsonDec data))) = 0 := by
      rw [basicFactTrace_eq, List.countP_eq_zero]
      intro e he
      simp [(bftAux_events createOk _ 0 e he).1]
    rw [h1, h2]
  · rw [List.countP_append]
    have h1 : List.countP isHandoffE
        [Event.readFile true, Event.parseEvt,
         Event.extractEvt (extractFacts (parseConv jsonDec data)).length,
         Event.estimateEvt (countTokens (parseConv jsonDec data))] = 0 := rfl
    have h2 : List.countP isHandoffE
        (basicFactTrace createOk (extractFacts (parseConv jsonDec data))) = 0 := by
      rw [basicFactTrace_eq, List.countP_eq_zero]
      intro e he
      simp [(bftAux_events createOk _ 0 e he).2]
    rw [h1, h2]
  · intro i f hf
    have hm := bftAux_mem createOk (extractFacts (parseConv jsonDec data)) 0 i f hf
    rw [Nat.zero_add] at hm
    rw [← basicFactTrace_eq] at hm
    exact List.mem_append.mpr (Or.inr hm)

/-- Concrete instance of the C1 cycle theorem: on the log line
`"Assistant: I decided to use Go."` with a remote store that fails every
fact creation, the cycle still scores the extracted decision fact and
attempts its remote creation. -/
theorem C1_processing_cycle_witness :
    List.Sublist
      [Event.scoreEvt 0
        (calculateImportance "decision".toList "I decided to use Go".toList 0 0),
       Event.createFactEvt 0
        (calculateImportance "decision".toList "I decided to use Go".toList 0 0) false]
      ((processLogFile true (some "Assistant: I decided to use Go.".toList)
        (fun _ => none) (initWState 0) 0 100 GetRes.okEntry true (fun _ => false)
        true).2) :=
  (C1_processing_cycle "Assistant: I decided to use Go.".toList (fun _ => none)
    (initWState 0) 0 100 GetRes.okEntry true (fun _ => false) true).2.2.2.1 0
    ⟨"decision".toList, "I decided to use Go".toList, 4⟩ (by decide)

end CCD
